/-
  Verification of the Unreal add-on workbench core
  (src/unreal-addon-web/src/components/PluginWorkbench.tsx).

  Strings from the TypeScript source are modelled as lists of characters
  (`Str`).  Each definition below is a direct translation of the
  corresponding function in PluginWorkbench.tsx; JavaScript regular
  expression replacements are translated character by character, and the
  comments on each definition say which source construct it embeds.
-/
import Mathlib

/-- Strings of the modelled program, as lists of characters. -/
abbrev Str := List Char

/-- Character class `[0-9]` used by the source's regular expressions. -/
def isDigitCh (c : Char) : Bool := 48 ≤ c.toNat && c.toNat ≤ 57

/-- Character class `[A-Z]`. -/
def isUpperCh (c : Char) : Bool := 65 ≤ c.toNat && c.toNat ≤ 90

/-- Character class `[a-z]`. -/
def isLowerCh (c : Char) : Bool := 97 ≤ c.toNat && c.toNat ≤ 122

/-- Character class `[A-Za-z0-9]` (the alphanumeric class of the source's
regular expressions). -/
def isAlnumCh (c : Char) : Bool := isDigitCh c || isUpperCh c || isLowerCh c

/-- Character class `[A-Za-z0-9_]` (identifier characters kept by
`sanitiseIdentifier`). -/
def isIdentCh (c : Char) : Bool := isAlnumCh c || c == '_'

/-- Character class `[A-Za-z_]` (characters allowed to start an
identifier). -/
def isLeadCh (c : Char) : Bool := isUpperCh c || isLowerCh c || c == '_'

/-- Whitespace characters removed by JavaScript's `String.prototype.trim`
(ASCII whitespace, NBSP, BOM and the Unicode space separators). -/
def isJsWs (c : Char) : Bool :=
  (9 ≤ c.toNat && c.toNat ≤ 13) || c.toNat == 32 || c.toNat == 160 ||
  c.toNat == 5760 || (8192 ≤ c.toNat && c.toNat ≤ 8202) ||
  c.toNat == 8232 || c.toNat == 8233 || c.toNat == 8239 ||
  c.toNat == 8287 || c.toNat == 12288 || c.toNat == 65279

/-- JavaScript `value.trim()`: drop leading and trailing whitespace. -/
def jsTrim (l : Str) : Str :=
  ((l.dropWhile isJsWs).reverse.dropWhile isJsWs).reverse

/-- JavaScript `value.toLowerCase()` restricted to the basic latin range
(all strings the generators lower-case are ASCII). -/
def jsToLower (l : Str) : Str := l.map Char.toLower

/-- JavaScript `value.toUpperCase()` restricted to the basic latin range. -/
def jsToUpper (l : Str) : Str := l.map Char.toUpper

/-- JavaScript `value.split(sep)` for a one-character separator: splits at
every occurrence of the separator, keeping empty pieces (`"".split` gives
`[""]`). -/
def splitOnCh (p : Char → Bool) : Str → List Str
  | [] => [[]]
  | a :: rest =>
    match splitOnCh p rest with
    | [] => [[a]]
    | s :: ss => if p a then [] :: s :: ss else (a :: s) :: ss

/-- Join a list of strings with a separator (JavaScript `parts.join(sep)`). -/
def joinSep (sep : Str) : List Str → Str
  | [] => []
  | [x] => x
  | x :: y :: rest => x ++ sep ++ joinSep sep (y :: rest)

/-- Capitalisation of one segment:
`segment.charAt(0).toUpperCase() + segment.slice(1)` in `toPascalCase`. -/
def capSegment : Str → Str
  | [] => []
  | c :: cs => c.toUpper :: cs

/-- The source's `toPascalCase`: `value.replace(/[^a-zA-Z0-9]+/g, " ")`
followed by `.split(" ").filter(Boolean)` keeps exactly the maximal
alphanumeric runs of the input; each run is capitalised and the runs are
concatenated. -/
def toPascalCase (value : Str) : Str :=
  ((splitOnCh (fun c => !isAlnumCh c) value).filter (fun s => s ≠ [])).map capSegment |>.flatten

/-- The source's `sanitiseIdentifier`:
`value.replace(/[^A-Za-z0-9_]/g, "")` keeps identifier characters,
`.replace(/^[A-Za-z_]*‹negated›/g, "")` (written `/^[^A-Za-z_]*/g`) drops the
leading run of characters that may not start an identifier, and
`.replace(/^[0-9]/, "_$&")` places an underscore before a leading digit. -/
def sanitiseIdentifier (value : Str) : Str :=
  let s1 := value.filter isIdentCh
  let s2 := s1.dropWhile (fun c => !isLeadCh c)
  match s2 with
  | [] => []
  | c :: cs => if isDigitCh c then '_' :: c :: cs else c :: cs

/-- Step two of `toApiMacro`:
`.replace(/([a-z0-9])([A-Z])/g, "$1_$2")` inserts an underscore between a
lower-case letter or digit and a following upper-case letter.  The first
group of the pattern never matches an upper-case letter, so matches cannot
overlap and the replacement is a single left-to-right pass. -/
def insertCamelBound : Str → Str
  | [] => []
  | [a] => [a]
  | a :: b :: rest =>
    if (isLowerCh a || isDigitCh a) && isUpperCh b then
      a :: '_' :: insertCamelBound (b :: rest)
    else
      a :: insertCamelBound (b :: rest)

/-- Step three of `toApiMacro`: `.replace(/_+/g, "_")` collapses runs of
underscores to a single underscore. -/
def collapseUnders : Str → Str
  | [] => []
  | [a] => [a]
  | a :: b :: rest =>
    if a == '_' && b == '_' then collapseUnders (b :: rest)
    else a :: collapseUnders (b :: rest)

/-- Step four of `toApiMacro`: `.replace(/^_|_$/g, "")` removes one leading
and one trailing underscore. -/
def dropEdgeUnders (l : Str) : Str :=
  let l1 := match l with
    | '_' :: rest => rest
    | other => other
  (match l1.reverse with
    | '_' :: rest => rest
    | other => other).reverse

/-- The source's `toApiMacro`. -/
def toApiMacro (value : Str) : Str :=
  let s1 := value.map (fun c => if isAlnumCh c then c else '_')
  let s2 := insertCamelBound s1
  let s3 := collapseUnders s2
  let s4 := dropEdgeUnders s3
  jsToUpper s4 ++ "_API".toList

/-- Decimal digits of `n`, least significant first, computed with explicit
fuel so that the definition is structurally recursive (`natDigits n n`
equals `Nat.digits 10 n`, proved below). -/
def natDigitsAux : Nat → Nat → List Nat
  | 0, _ => []
  | fuel + 1, n => if n = 0 then [] else n % 10 :: natDigitsAux fuel (n / 10)

/-- Character for a decimal digit. -/
def digitCh (d : Nat) : Char := Char.ofNat (48 + d)

/-- Decimal rendering of a natural number, as produced by JavaScript
template interpolation of a number (`${index}`). -/
def natRepr (n : Nat) : Str :=
  if n = 0 then ['0'] else ((natDigitsAux n n).map digitCh).reverse

/-- Candidate tried by `uniqueParameterName` at attempt `idx`: the name
itself first, then `name1`, `name2`, ... (`candidate = name + index` in the
source loop). -/
def uniqueCand (name : Str) (idx : Nat) : Str :=
  if idx = 0 then name else name ++ natRepr idx

/-- Loop of the source's `uniqueParameterName`: try `name`, `name1`,
`name2`, ... until a candidate is outside `taken`.  The loop always
terminates because the candidates are pairwise distinct and `taken` is
finite; the fuel `taken.length + 1` supplied below is enough (proved in
`goUnique_not_mem`). -/
def goUnique (name : Str) (taken : List Str) : Nat → Nat → Str
  | 0, idx => uniqueCand name idx
  | fuel + 1, idx =>
    if uniqueCand name idx ∈ taken then goUnique name taken fuel (idx + 1)
    else uniqueCand name idx

/-- The source's `uniqueParameterName(name, taken)`: returns the chosen
candidate together with the updated `taken` set (the source mutates the
`Set` in place via `taken.add(candidate)`). -/
def uniqueParameterName (name : Str) (taken : List Str) : Str × List Str :=
  let c := goUnique name taken (taken.length + 1) 0
  (c, c :: taken)

/-- Raw parameter of a Blueprint endpoint (`BlueprintParameter` in the
source). -/
structure BlueprintParameter where
  name : Str
  type : Str
deriving DecidableEq, Repr

/-- Raw user-entered endpoint (`BlueprintFunction` in the source). -/
structure BlueprintFunction where
  name : Str
  returnType : Str
  description : Str
  parameters : List BlueprintParameter
deriving DecidableEq, Repr

/-- Loading phases of the plugin descriptor (the string-union type of
`PluginMetadata.loadingPhase`). -/
inductive LoadingPhase where
  | Default
  | PostDefault
  | PostEngineInit
  | PostSplash
deriving DecidableEq, Repr

/-- Rendering of a loading phase, as it appears in the source union type. -/
def phaseStr : LoadingPhase → Str
  | LoadingPhase.Default => "Default".toList
  | LoadingPhase.PostDefault => "PostDefault".toList
  | LoadingPhase.PostEngineInit => "PostEngineInit".toList
  | LoadingPhase.PostSplash => "PostSplash".toList

/-- The source's `PluginMetadata` record. -/
structure PluginMetadata where
  pluginName : Str
  friendlyName : Str
  version : Str
  description : Str
  category : Str
  loadingPhase : LoadingPhase
  supportedTargets : Str
  enableEditorModule : Bool
  enableBlueprintLibrary : Bool
  enableAsyncActions : Bool
  enableEditorMenu : Bool
deriving DecidableEq, Repr

/-- The source's `defaultMetadata` constant. -/
def defaultMetadata : PluginMetadata where
  pluginName := "NebulaToolkit".toList
  friendlyName := "Nebula Toolkit".toList
  version := "1.0.0".toList
  description := ("Mission scripting utilities, smart triggers, and authoring helpers " ++
    "for cinematic gameplay sequences.").toList
  category := "Gameplay".toList
  loadingPhase := LoadingPhase.PostEngineInit
  supportedTargets := "Win64, Mac, Linux".toList
  enableEditorModule := true
  enableBlueprintLibrary := true
  enableAsyncActions := true
  enableEditorMenu := true

/-- The source's `defaultFunctions` constant. -/
def defaultFunctions : List BlueprintFunction :=
  [{ name := "PulseMissionEvent".toList
     returnType := "void".toList
     description := ("Broadcasts a mission pulse to subscribed listeners with a contextual " ++
       "payload for analytics or sequencing.").toList
     parameters := [⟨"WorldContextObject".toList, "UObject*".toList⟩,
       ⟨"EventTag".toList, "FName".toList⟩,
       ⟨"Payload".toList, "FGameplayTagContainer".toList⟩] },
   { name := "GetSequenceProgress".toList
     returnType := "float".toList
     description := ("Returns a normalized 0-1 progress value for the active master sequence, " ++
       "clamped for safe UI usage.").toList
     parameters := [⟨"WorldContextObject".toList, "UObject*".toList⟩,
       ⟨"SequenceLabel".toList, "FName".toList⟩] }]

/-- Normalized endpoint produced by the `normalizedBlueprintFunctions`
memo in the source. -/
structure NormalizedEndpoint where
  key : Str
  displayName : Str
  description : Str
  returnType : Str
  parameters : List BlueprintParameter
  metadataSegments : List Str
deriving DecidableEq, Repr

/-- Per-parameter sanitisation pass of `normalizedBlueprintFunctions`
(the `fn.parameters.map` building `sanitizedParameters`), threading the
`taken` set through `uniqueParameterName`.  `index` is the endpoint's
position in the list, used by the `Param${index}` fallback name. -/
def sanitizeParams (index : Nat) : List BlueprintParameter → List Str →
    List BlueprintParameter × List Str
  | [], taken => ([], taken)
  | p :: rest, taken =>
    let safeType := if jsTrim p.type = [] then "float".toList else jsTrim p.type
    let safeName :=
      if sanitiseIdentifier p.name = [] then "Param".toList ++ natRepr index
      else sanitiseIdentifier p.name
    let u := uniqueParameterName safeName taken
    let r := sanitizeParams index rest u.2
    (⟨u.1, safeType⟩ :: r.1, r.2)

/-- The fixed context parameter injected by the normalizer. -/
def worldContextParam : BlueprintParameter :=
  ⟨"WorldContextObject".toList, "UObject*".toList⟩

/-- Normalisation of a single endpoint at position `index`
(the body of the `blueprintFunctions.map((fn, index) => ...)` callback). -/
def normalizeOne (friendlyName : Str) (index : Nat) (fn : BlueprintFunction) :
    NormalizedEndpoint :=
  let sanitizedParameters := (sanitizeParams index fn.parameters []).1
  let hasWorldContext :=
    "WorldContextObject".toList ∈ sanitizedParameters.map BlueprintParameter.name
  let afterInjection :=
    if hasWorldContext then (sanitizedParameters, true)
    else (worldContextParam :: sanitizedParameters, true)
  let parameters := afterInjection.1
  let returnType := if jsTrim fn.returnType = [] then "void".toList else jsTrim fn.returnType
  let metadataSegments :=
    ["Category=\"".toList ++ friendlyName ++ "|Blueprint\"".toList] ++
      (if afterInjection.2 then ["WorldContext=\"WorldContextObject\"".toList] else [])
  { key := fn.name ++ "-".toList ++ natRepr index
    displayName := toPascalCase
      (if sanitiseIdentifier fn.name = [] then "GeneratedFunction".toList
       else sanitiseIdentifier fn.name)
    description := fn.description
    returnType := returnType
    parameters := parameters
    metadataSegments := metadataSegments }

/-- Indexed map, mirroring the JavaScript `array.map((x, index) => ...)`. -/
def mapWithIndexFrom (f : Nat → α → β) (start : Nat) : List α → List β
  | [] => []
  | a :: rest => f start a :: mapWithIndexFrom f (start + 1) rest

/-- The source's `normalizedBlueprintFunctions` memo: one normalized
endpoint per raw endpoint, in order. -/
def normalizedBlueprintFunctions (friendlyName : Str) (fns : List BlueprintFunction) :
    List NormalizedEndpoint :=
  mapWithIndexFrom (normalizeOne friendlyName) 0 fns

/-- The source's `moduleName` memo:
`toPascalCase(metadata.pluginName || "AddonModule")` (the empty string is
the only falsy string). -/
def moduleName (m : PluginMetadata) : Str :=
  toPascalCase (if m.pluginName = [] then "AddonModule".toList else m.pluginName)

/-- The source's `moduleApiMacro` memo. -/
def moduleApiMacro (m : PluginMetadata) : Str := toApiMacro (moduleName m)

/-- The source's `logCategory` memo. -/
def logCategory (m : PluginMetadata) : Str := "Log".toList ++ moduleName m

/-- The source's `moduleClass` memo. -/
def moduleClass (m : PluginMetadata) : Str :=
  "F".toList ++ moduleName m ++ "Module".toList

/-- The source's `blueprintClass` memo. -/
def blueprintClass (m : PluginMetadata) : Str :=
  "U".toList ++ moduleName m ++ "BlueprintLibrary".toList

/-- The source's `asyncActionClass` memo. -/
def asyncActionClass (m : PluginMetadata) : Str :=
  "U".toList ++ moduleName m ++ "AsyncAction".toList

/-- Does `hay` start with `needle` (JavaScript `hay.startsWith(needle)`)? -/
def leadEq : Str → Str → Bool
  | [], _ => true
  | _ :: _, [] => false
  | a :: as, b :: bs => a == b && leadEq as bs

/-- Does `hay` end with `needle` (JavaScript `hay.endsWith(needle)`)? -/
def tailEq (needle hay : Str) : Bool := leadEq needle.reverse hay.reverse

/-- Does `hay` contain `needle` (JavaScript `hay.includes(needle)`)? -/
def hasSub (needle : Str) : Str → Bool
  | [] => leadEq needle []
  | b :: bs => leadEq needle (b :: bs) || hasSub needle bs

/-- The source's `defaultReturnSnippet`. -/
def defaultReturnSnippet (returnType : Str) : Str :=
  let trimmed := jsToLower (jsTrim returnType)
  if trimmed = "void".toList then []
  else if trimmed = "bool".toList then "return false;".toList
  else if hasSub "float".toList trimmed || hasSub "double".toList trimmed then
    "return 0.f;".toList
  else if leadEq "int".toList trimmed || tailEq "32".toList trimmed ||
      tailEq "64".toList trimmed then
    "return 0;".toList
  else if trimmed = "fstring".toList then "return TEXT(\"\");".toList
  else "return \x7b\x7d;".toList

/-- One entry of the parameter draft inside `handleAddBlueprintFunction`:
`entry.split(":").map(trim)` destructured as `[rawName, rawType]`; entries
with a missing or empty name or type produce nothing, the rest produce a
parameter with sanitised name (fallback `"Param"`). -/
def parsePair (entry : Str) : Option BlueprintParameter :=
  match (splitOnCh (fun c => c == ':') entry).map jsTrim with
  | [] => none
  | [_] => none
  | rawName :: rawType :: _ =>
    if rawName = [] ∨ rawType = [] then none
    else some ⟨(if sanitiseIdentifier rawName = [] then "Param".toList
       else sanitiseIdentifier rawName), rawType⟩

/-- Parameter-draft parsing of `handleAddBlueprintFunction`:
`parameterDraft.split(",").map(trim).filter(Boolean)` followed by the
`forEach` loop pushing one parameter per well-formed entry. -/
def parseParameterDraft (draft : Str) : List BlueprintParameter :=
  (((splitOnCh (fun c => c == ',') draft).map jsTrim).filter (fun e => e ≠ [])).foldl
    (fun acc entry => acc ++ (parsePair entry).toList) []

/-- The source's `handleAddBlueprintFunction`, as a transition on the
`blueprintFunctions` state: a blank function name aborts, otherwise one
`BlueprintFunction` is appended. -/
def handleAddBlueprintFunction (existing : List BlueprintFunction)
    (newFunctionName newFunctionReturnType newFunctionDescription parameterDraft : Str) :
    List BlueprintFunction :=
  if jsTrim newFunctionName = [] then existing
  else
    existing ++
      [{ name := jsTrim newFunctionName
         returnType := if jsTrim newFunctionReturnType = [] then "void".toList
           else jsTrim newFunctionReturnType
         description := if jsTrim newFunctionDescription = [] then "Generated function.".toList
           else jsTrim newFunctionDescription
         parameters := parseParameterDraft parameterDraft }]

/-- The source's `handleRemoveBlueprintFunction`: removal by index. -/
def handleRemoveBlueprintFunction (existing : List BlueprintFunction) (index : Nat) :
    List BlueprintFunction :=
  (mapWithIndexFrom (fun i fn => (i, fn)) 0 existing).filter (fun p => p.1 ≠ index)
    |>.map (fun p => p.2)

/-- Module entry of the `.uplugin` descriptor (elements of the `modules`
array in `descriptorJson`; the field `Typ` models the JSON key `"Type"`,
which is a reserved word in Lean). -/
structure ModuleEntry where
  Name : Str
  Typ : Str
  LoadingPhase : Str
deriving DecidableEq, Repr

/-- Plugin dependency entry of the descriptor (`Plugins` array). -/
structure PluginRef where
  Name : Str
  Enabled : Bool
deriving DecidableEq, Repr

/-- The `modules` array built at the start of `descriptorJson`: a runtime
entry with the selected loading phase, plus an editor entry with the fixed
`"Default"` phase when the editor module is enabled. -/
def descriptorModules (m : PluginMetadata) : List ModuleEntry :=
  [⟨moduleName m, "Runtime".toList, phaseStr m.loadingPhase⟩] ++
    (if m.enableEditorModule then
      [⟨moduleName m ++ "Editor".toList, "Editor".toList, "Default".toList⟩]
     else [])

/-- The `Plugins` field of the descriptor: the `GameplayTasks` dependency
is present exactly when async actions are enabled. -/
def descriptorPlugins (m : PluginMetadata) : List PluginRef :=
  if m.enableAsyncActions then [⟨"GameplayTasks".toList, true⟩] else []

/-- Lower-case hexadecimal digit, used by the JSON string escape. -/
def hexDigitCh (n : Nat) : Char :=
  if n < 10 then Char.ofNat (48 + n) else Char.ofNat (87 + n)

/-- Escape of a single character inside a JSON string, as performed by
`JSON.stringify`. -/
def escCh (c : Char) : Str :=
  if c == '\"' then ['\\', '\"']
  else if c == '\\' then ['\\', '\\']
  else if c == '\x08' then ['\\', 'b']
  else if c == '\x09' then ['\\', 't']
  else if c == '\x0a' then ['\\', 'n']
  else if c == '\x0c' then ['\\', 'f']
  else if c == '\x0d' then ['\\', 'r']
  else if c.toNat < 32 then
    "\\u00".toList ++ [hexDigitCh (c.toNat / 16), hexDigitCh (c.toNat % 16)]
  else [c]

/-- JSON string escaping (`JSON.stringify` on a string value, without the
surrounding quotes). -/
def jsonEscape (l : Str) : Str := (l.map escCh).flatten

/-- A JSON string literal: quotes around the escaped content. -/
def jsonStr (l : Str) : Str := '\"' :: (jsonEscape l ++ ['\"'])

/-- Rendering of one module entry inside `JSON.stringify(..., null, 2)`
(array items at depth 2, keys at depth 3). -/
def moduleEntryJson (e : ModuleEntry) : Str :=
  "    \x7b\n      \"Name\": ".toList ++ jsonStr e.Name ++
  ",\n      \"Type\": ".toList ++ jsonStr e.Typ ++
  ",\n      \"LoadingPhase\": ".toList ++ jsonStr e.LoadingPhase ++
  "\n    \x7d".toList

/-- Rendering of one plugin dependency entry. -/
def pluginRefJson (p : PluginRef) : Str :=
  "    \x7b\n      \"Name\": ".toList ++ jsonStr p.Name ++
  ",\n      \"Enabled\": ".toList ++
  (if p.Enabled then "true".toList else "false".toList) ++
  "\n    \x7d".toList

/-- Rendering of the `Plugins` array (`JSON.stringify` prints an empty
array as `[]`). -/
def pluginsJson (m : PluginMetadata) : Str :=
  match descriptorPlugins m with
  | [] => "[]".toList
  | ps => "[\n".toList ++ joinSep ",\n".toList (ps.map pluginRefJson) ++ "\n  ]".toList

/-- The target-platform list of the descriptor:
`metadata.supportedTargets.split(",").map((entry) => entry.trim())`. -/
def supportedTargetList (m : PluginMetadata) : List Str :=
  (splitOnCh (fun c => c == ',') m.supportedTargets).map jsTrim

/-- The source's `descriptorJson` memo: `JSON.stringify(value, null, 2)` of
the descriptor object, with its keys in insertion order. -/
def descriptorJson (m : PluginMetadata) : Str :=
  "\x7b\n  \"FileVersion\": 3,\n  \"Version\": 1,\n  \"VersionName\": ".toList ++
  jsonStr m.version ++
  ",\n  \"FriendlyName\": ".toList ++ jsonStr m.friendlyName ++
  ",\n  \"Description\": ".toList ++ jsonStr m.description ++
  ",\n  \"Category\": ".toList ++ jsonStr m.category ++
  ",\n  \"CreatedBy\": \"Unreal Addon Architect\",".toList ++
  "\n  \"CreatedByURL\": \"https://agentic-8d19d81d.vercel.app\",".toList ++
  "\n  \"EngineVersion\": \"5.3.0\",\n  \"Modules\": [\n".toList ++
  joinSep ",\n".toList ((descriptorModules m).map moduleEntryJson) ++
  "\n  ],\n  \"Plugins\": ".toList ++ pluginsJson m ++
  ",\n  \"SupportedTargetPlatforms\": [\n".toList ++
  joinSep ",\n".toList ((supportedTargetList m).map (fun t => "    ".toList ++ jsonStr t)) ++
  "\n  ]\n\x7d".toList

/-- Insertion into a JavaScript `Set` (insertion-ordered, ignores
duplicates). -/
def setAdd (l : List Str) (x : Str) : List Str :=
  if x ∈ l then l else l ++ [x]

/-- The `publicDeps` set of the source's `buildScript` memo. -/
def publicDeps (m : PluginMetadata) : List Str :=
  let s := ["Core".toList, "CoreUObject".toList, "Engine".toList]
  let s := if m.enableBlueprintLibrary then setAdd s "Kismet".toList else s
  let s := if m.enableAsyncActions then setAdd s "GameplayTasks".toList else s
  s

/-- The `privateDeps` set of the source's `buildScript` memo. -/
def privateDeps (m : PluginMetadata) : List Str :=
  let s := ["Slate".toList, "SlateCore".toList]
  let s := if m.enableBlueprintLibrary then setAdd s "UMG".toList else s
  let s := if m.enableEditorModule then
    setAdd (setAdd s "UnrealEd".toList) "LevelSequence".toList else s
  s

/-- Lexicographic comparison of strings by code point, the order used by
JavaScript's default `Array.prototype.sort` on strings. -/
def lexLe : Str → Str → Bool
  | [], _ => true
  | _ :: _, [] => false
  | a :: as, b :: bs =>
    if a.toNat < b.toNat then true
    else if b.toNat < a.toNat then false
    else lexLe as bs

/-- Sorted insertion for `sortStrs`. -/
def insertSorted (x : Str) : List Str → List Str
  | [] => [x]
  | y :: ys => if lexLe x y then x :: y :: ys else y :: insertSorted x ys

/-- Sorting a list of strings into the order produced by
`Array.from(deps).sort()` (the sorted arrangement of distinct strings is
unique, so insertion sort models it exactly). -/
def sortStrs : List Str → List Str
  | [] => []
  | x :: xs => insertSorted x (sortStrs xs)

/-- The source's `formatDependency`: sort the dependency names and render
each on its own 12-space-indented quoted line, joined with `",\n"`. -/
def formatDependency (deps : List Str) : Str :=
  joinSep ",\n".toList
    ((sortStrs deps).map (fun dep => "            \"".toList ++ dep ++ "\"".toList))

/-- The editor-only dependency block of the generated Build.cs, gated
behind `Target.bBuildEditor` in the emitted script. -/
def editorGatedBlock : Str :=
  ("        if (Target.bBuildEditor)\n        \x7b\n" ++
   "            PrivateDependencyModuleNames.AddRange(new string[]\n" ++
   "            \x7b\n                \"AssetTools\",\n                \"EditorFramework\"\n" ++
   "            \x7d);\n        \x7d").toList

/-- Everything of the generated Build.cs before the editor-gated block. -/
def buildScriptHead (m : PluginMetadata) : Str :=
  "using UnrealBuildTool;\n\npublic class ".toList ++ moduleName m ++
  " : ModuleRules\n\x7b\n    public ".toList ++ moduleName m ++
  ("(ReadOnlyTargetRules Target) : base(Target)\n    \x7b\n" ++
   "        PCHUsage = PCHUsageMode.UseExplicitOrSharedPCHs;\n\n" ++
   "        PublicDependencyModuleNames.AddRange(new string[]\n        \x7b\n").toList ++
  formatDependency (publicDeps m) ++
  ("\n        \x7d);\n\n" ++
   "        PrivateDependencyModuleNames.AddRange(new string[]\n        \x7b\n").toList ++
  formatDependency (privateDeps m) ++
  "\n        \x7d);\n\n".toList

/-- The source's `buildScript` memo. -/
def buildScript (m : PluginMetadata) : Str :=
  buildScriptHead m ++ editorGatedBlock ++ "\n    \x7d\n\x7d".toList

/-- The source's `moduleHeader` memo. -/
def moduleHeader (m : PluginMetadata) : Str :=
  let editorSignature :=
    if m.enableEditorModule then
      "\n#if WITH_EDITOR\n  void RegisterEditorUtilities();\n#endif".toList
    else []
  ("#pragma once\n\n#include \"Modules/ModuleInterface.h\"\n" ++
   "#include \"Modules/ModuleManager.h\"\n\nDECLARE_LOG_CATEGORY_EXTERN(").toList ++
  logCategory m ++ ", Log, All);\n\nclass ".toList ++ moduleClass m ++
  (" : public IModuleInterface\n\x7b\npublic:\n" ++
   "  virtual void StartupModule() override;\n" ++
   "  virtual void ShutdownModule() override;").toList ++
  editorSignature ++ "\n\x7d;".toList

/-- The `editorBody` string of the source's `moduleSource` memo. -/
def moduleSourceEditorBody (m : PluginMetadata) : Str :=
  if m.enableEditorModule then
    "\n#if WITH_EDITOR\nvoid ".toList ++ moduleClass m ++
    ("::RegisterEditorUtilities()\n\x7b\n" ++
     "  // TODO: Register asset factories, detail customizations, level snapshots, " ++
     "or automation tests.\n\x7d\n#endif").toList
  else []

/-- The source's `moduleSource` memo. -/
def moduleSource (m : PluginMetadata) : Str :=
  "#include \"".toList ++ moduleName m ++
  ".h\"\n#include \"Logging/LogMacros.h\"\n\nDEFINE_LOG_CATEGORY(".toList ++
  logCategory m ++ ");\nIMPLEMENT_MODULE(".toList ++ moduleClass m ++ ", ".toList ++
  moduleName m ++ ");\n\nvoid ".toList ++ moduleClass m ++
  "::StartupModule()\n\x7b\n  UE_LOG(".toList ++ logCategory m ++
  ", Display, TEXT(\"".toList ++ moduleName m ++
  (" module started.\"));\n#if WITH_EDITOR\n  if (GIsEditor)\n  \x7b\n" ++
   "    RegisterEditorUtilities();\n  \x7d\n#endif\n\x7d\n\nvoid ").toList ++
  moduleClass m ++ "::ShutdownModule()\n\x7b\n  UE_LOG(".toList ++ logCategory m ++
  ", Display, TEXT(\"".toList ++ moduleName m ++ " module shut down.\"));\n\x7d".toList ++
  (if moduleSourceEditorBody m = [] then []
   else "\n".toList ++ moduleSourceEditorBody m)

/-- One function declaration of the Blueprint library header. -/
def fnDeclaration (fn : NormalizedEndpoint) : Str :=
  "  /**\n   * ".toList ++ fn.description ++
  "\n   */\n  UFUNCTION(BlueprintCallable, meta=(".toList ++
  joinSep ", ".toList fn.metadataSegments ++
  "))\n  static ".toList ++ fn.returnType ++ " ".toList ++ fn.displayName ++
  "(".toList ++
  joinSep ", ".toList (fn.parameters.map (fun p => p.type ++ " ".toList ++ p.name)) ++
  ");".toList

/-- The source's `blueprintHeader` memo (empty when the Blueprint library
is disabled). -/
def blueprintHeader (m : PluginMetadata) (fns : List BlueprintFunction) : Str :=
  if !m.enableBlueprintLibrary then []
  else
    ("#pragma once\n\n#include \"Kismet/BlueprintFunctionLibrary.h\"\n" ++
     "#include \"").toList ++ moduleName m ++ ".h\"\n#include \"".toList ++
    moduleName m ++ "BlueprintLibrary.generated.h\"\n\nUCLASS()\nclass ".toList ++
    moduleApiMacro m ++ " ".toList ++ blueprintClass m ++
    (" : public UBlueprintFunctionLibrary\n\x7b\n  GENERATED_BODY()\n\n" ++
     "public:\n").toList ++
    joinSep "\n\n".toList
      ((normalizedBlueprintFunctions m.friendlyName fns).map fnDeclaration) ++
    "\n\x7d;".toList

/-- One function body of the Blueprint library source. -/
def fnBody (m : PluginMetadata) (fn : NormalizedEndpoint) : Str :=
  let signature :=
    joinSep ", ".toList (fn.parameters.map (fun p => p.type ++ " ".toList ++ p.name))
  let guardReturn :=
    if jsToLower fn.returnType = "void".toList then "    return;".toList
    else "    ".toList ++ defaultReturnSnippet fn.returnType
  let implementationReturn :=
    if jsToLower fn.returnType = "void".toList then "  return;".toList
    else "  ".toList ++ defaultReturnSnippet fn.returnType
  fn.returnType ++ " ".toList ++ blueprintClass m ++ "::".toList ++ fn.displayName ++
  "(".toList ++ signature ++
  ")\n\x7b\n  if (!WorldContextObject)\n  \x7b\n    UE_LOG(".toList ++
  logCategory m ++ ", Warning, TEXT(\"".toList ++ fn.displayName ++
  " called without a valid world context.\"));\n".toList ++ guardReturn ++
  "\n  \x7d\n\n  // TODO: Implement ".toList ++ fn.displayName ++ ". ".toList ++
  fn.description ++ "\n".toList ++ implementationReturn ++ "\n\x7d".toList

/-- The source's `blueprintSource` memo. -/
def blueprintSource (m : PluginMetadata) (fns : List BlueprintFunction) : Str :=
  if !m.enableBlueprintLibrary then []
  else
    "#include \"".toList ++ moduleName m ++
    ("BlueprintLibrary.h\"\n#include \"Engine/World.h\"\n" ++
     "#include \"Engine/Engine.h\"\n#include \"Kismet/GameplayStatics.h\"\n\n").toList ++
    joinSep "\n\n".toList
      ((normalizedBlueprintFunctions m.friendlyName fns).map (fnBody m))

/-- The source's `asyncHeader` memo (empty when async actions are
disabled). -/
def asyncHeader (m : PluginMetadata) : Str :=
  if !m.enableAsyncActions then []
  else
    ("#pragma once\n\n#include \"Kismet/BlueprintAsyncActionBase.h\"\n" ++
     "#include \"").toList ++ moduleName m ++
    ("AsyncAction.generated.h\"\n\n" ++
     "DECLARE_DYNAMIC_MULTICAST_DELEGATE_OneParam(F").toList ++ moduleName m ++
    "AsyncPayload, float, Progress);\n\nUCLASS()\nclass ".toList ++
    moduleApiMacro m ++ " ".toList ++ asyncActionClass m ++
    (" : public UBlueprintAsyncActionBase\n\x7b\n  GENERATED_BODY()\n\npublic:\n" ++
     "  UFUNCTION(BlueprintCallable, meta=(BlueprintInternalUseOnly=\"true\", " ++
     "WorldContext=\"WorldContextObject\"))\n  static ").toList ++
    asyncActionClass m ++
    ("* ExecuteTimedTask(UObject* WorldContextObject, float DurationSeconds);\n\n" ++
     "  UPROPERTY(BlueprintAssignable)\n  F").toList ++ moduleName m ++
    "AsyncPayload OnProgress;\n\n  UPROPERTY(BlueprintAssignable)\n  F".toList ++
    moduleName m ++
    ("AsyncPayload OnComplete;\n\n  virtual void Activate() override;\n\n" ++
     "private:\n  void AdvanceProgress();\n\n  float Duration = 1.f;\n" ++
     "  float Elapsed = 0.f;\n  TObjectPtr<UWorld> CachedWorld;\n\x7d;").toList

/-- The source's `asyncSource` memo (empty when async actions are
disabled). -/
def asyncSource (m : PluginMetadata) : Str :=
  if !m.enableAsyncActions then []
  else
    "#include \"".toList ++ moduleName m ++ "AsyncAction.h\"\n#include \"".toList ++
    moduleName m ++
    ".h\"\n#include \"Engine/World.h\"\n#include \"TimerManager.h\"\n\n".toList ++
    asyncActionClass m ++ "* ".toList ++ asyncActionClass m ++
    "::ExecuteTimedTask(UObject* WorldContextObject, float DurationSeconds)\n\x7b\n  ".toList ++
    asyncActionClass m ++ "* Action = NewObject<".toList ++ asyncActionClass m ++
    (">();\n  Action->Duration = FMath::Max(DurationSeconds, KINDA_SMALL_NUMBER);\n" ++
     "  Action->CachedWorld = WorldContextObject ? WorldContextObject->GetWorld() : nullptr;\n" ++
     "  Action->RegisterWithGameInstance(WorldContextObject);\n  return Action;\n\x7d\n\n" ++
     "void ").toList ++ asyncActionClass m ++
    "::Activate()\n\x7b\n  if (!CachedWorld.IsValid())\n  \x7b\n    UE_LOG(".toList ++
    logCategory m ++
    (", Warning, TEXT(\"Async action had no valid world.\"));\n" ++
     "    OnComplete.Broadcast(1.f);\n    SetReadyToDestroy();\n    return;\n  \x7d\n\n" ++
     "  CachedWorld->GetTimerManager().SetTimerForNextTick([this]()\n  \x7b\n" ++
     "    AdvanceProgress();\n  \x7d);\n\x7d\n\nvoid ").toList ++
    asyncActionClass m ++
    ("::AdvanceProgress()\n\x7b\n  if (!CachedWorld.IsValid())\n  \x7b\n" ++
     "    OnComplete.Broadcast(1.f);\n    SetReadyToDestroy();\n    return;\n  \x7d\n\n" ++
     "  Elapsed += CachedWorld->GetDeltaSeconds();\n" ++
     "  const float Normalized = FMath::Clamp(Elapsed / Duration, 0.f, 1.f);\n" ++
     "  OnProgress.Broadcast(Normalized);\n\n" ++
     "  if (Normalized >= 1.f - KINDA_SMALL_NUMBER)\n  \x7b\n" ++
     "    OnComplete.Broadcast(1.f);\n    SetReadyToDestroy();\n    return;\n  \x7d\n\n" ++
     "  CachedWorld->GetTimerManager().SetTimerForNextTick([this]()\n  \x7b\n" ++
     "    AdvanceProgress();\n  \x7d);\n\x7d").toList

/-- The source's `editorHeader` memo (empty when the editor module is
disabled). -/
def editorHeader (m : PluginMetadata) : Str :=
  if !m.enableEditorModule then []
  else
    "#pragma once\n\n#include \"Modules/ModuleManager.h\"\n\nclass ".toList ++
    moduleClass m ++
    ("Editor : public IModuleInterface\n\x7b\npublic:\n" ++
     "  virtual void StartupModule() override;\n" ++
     "  virtual void ShutdownModule() override;\n\nprivate:\n").toList ++
    (if m.enableEditorMenu then "  void RegisterMenus();\n".toList else []) ++
    "  void RegisterLevelViewportExtensions();\n\x7d;".toList

/-- The source's `editorSource` memo (empty when the editor module is
disabled). -/
def editorSource (m : PluginMetadata) : Str :=
  if !m.enableEditorModule then []
  else
    let includes :=
      ["#include \"".toList ++ moduleName m ++ "Editor.h\"".toList,
       "#include \"".toList ++ moduleName m ++ ".h\"".toList,
       "#include \"LevelEditor.h\"".toList] ++
      (if m.enableEditorMenu then ["#include \"ToolMenus.h\"".toList] else [])
    let startupCalls :=
      if m.enableEditorMenu then
        "  RegisterMenus();\n  RegisterLevelViewportExtensions();".toList
      else "  RegisterLevelViewportExtensions();".toList
    let shutdownCalls :=
      if m.enableEditorMenu then
        ("  if (UToolMenus::IsInitialized())\n  \x7b\n" ++
         "    UToolMenus::UnregisterOwner(this);\n  \x7d").toList
      else []
    let menuImplementation :=
      if m.enableEditorMenu then
        "\nvoid ".toList ++ moduleClass m ++
        ("Editor::RegisterMenus()\n\x7b\n  if (UToolMenus::IsInitialized() && " ++
         "UToolMenus::Get()->IsMenuRegistered(\"LevelEditor.MainMenu\"))\n  \x7b\n" ++
         "    auto* Menu = UToolMenus::Get()->ExtendMenu(\"LevelEditor.MainMenu.Tools\");\n" ++
         "    FToolMenuSection& Section = Menu->AddSection(\"section_").toList ++
        moduleName m ++ "\", TEXT(\"".toList ++ m.friendlyName ++
        "\"));\n    Section.AddMenuEntry(\n      \"Open".toList ++ moduleName m ++
        "Panel\",\n      FText::FromString(\"Open ".toList ++ m.friendlyName ++
        (" Panel\"),\n      FText::FromString(\"Launches the toolkit command panel.\"),\n" ++
         "      FSlateIcon(),\n      FUIAction(FExecuteAction::CreateLambda([]()\n" ++
         "      \x7b\n        UE_LOG(").toList ++ logCategory m ++
        ", Display, TEXT(\"Launching ".toList ++ m.friendlyName ++
        " tools panel...\"));\n      \x7d))\n    );\n  \x7d\n\x7d".toList
      else []
    joinSep "\n".toList includes ++ "\n\nvoid ".toList ++ moduleClass m ++
    "Editor::StartupModule()\n\x7b\n".toList ++ startupCalls ++
    "\n\x7d\n\nvoid ".toList ++ moduleClass m ++
    "Editor::ShutdownModule()\n\x7b\n".toList ++ shutdownCalls ++
    "\n\x7d\n\nvoid ".toList ++ moduleClass m ++
    ("Editor::RegisterLevelViewportExtensions()\n\x7b\n" ++
     "  FLevelEditorModule& LevelEditorModule = " ++
     "FModuleManager::LoadModuleChecked<FLevelEditorModule>(\"LevelEditor\");\n" ++
     "  LevelEditorModule.OnMapChanged().AddLambda([](UWorld* World, " ++
     "EMapChangeType ChangeType)\n  \x7b\n    UE_LOG(").toList ++ logCategory m ++
    ", Verbose, TEXT(\"".toList ++ m.friendlyName ++
    (" detected map change: %s\"), " ++
     "*StaticEnum<EMapChangeType>()->GetNameStringByValue(" ++
     "static_cast<int64>(ChangeType)));\n  \x7d);\n\x7d\n").toList ++
    menuImplementation ++ "\n\nIMPLEMENT_MODULE(".toList ++ moduleClass m ++
    "Editor, ".toList ++ moduleName m ++ "Editor);".toList

/-- One output panel of the workbench (title, target path, language tag and
text, as handed to the `CodeBlock` component). -/
structure GeneratedArtifact where
  title : Str
  filename : Str
  language : Str
  code : Str
deriving DecidableEq, Repr

/-- The list of artifact panels rendered by the workbench, mirroring the
JSX output section: four unconditional panels, then three optional pairs
each gated by its feature flag and the non-emptiness of its header text. -/
def producedArtifacts (m : PluginMetadata) (fns : List BlueprintFunction) :
    List GeneratedArtifact :=
  [⟨".uplugin descriptor".toList, m.pluginName ++ ".uplugin".toList, "json".toList,
      descriptorJson m⟩,
   ⟨"Runtime module header".toList,
      "Source/".toList ++ moduleName m ++ "/".toList ++ moduleName m ++ ".h".toList,
      "cpp".toList, moduleHeader m⟩,
   ⟨"Runtime module source".toList,
      "Source/".toList ++ moduleName m ++ "/".toList ++ moduleName m ++ ".cpp".toList,
      "cpp".toList, moduleSource m⟩,
   ⟨"Build.cs".toList,
      "Source/".toList ++ moduleName m ++ "/".toList ++ moduleName m ++ ".Build.cs".toList,
      "csharp".toList, buildScript m⟩] ++
  (if m.enableBlueprintLibrary ∧ blueprintHeader m fns ≠ [] then
    [⟨"Blueprint library header".toList,
        "Source/".toList ++ moduleName m ++ "/Public/".toList ++ moduleName m ++
          "BlueprintLibrary.h".toList,
        "cpp".toList, blueprintHeader m fns⟩,
     ⟨"Blueprint library source".toList,
        "Source/".toList ++ moduleName m ++ "/Private/".toList ++ moduleName m ++
          "BlueprintLibrary.cpp".toList,
        "cpp".toList, blueprintSource m fns⟩]
   else []) ++
  (if m.enableAsyncActions ∧ asyncHeader m ≠ [] then
    [⟨"Async action header".toList,
        "Source/".toList ++ moduleName m ++ "/Public/".toList ++ moduleName m ++
          "AsyncAction.h".toList,
        "cpp".toList, asyncHeader m⟩,
     ⟨"Async action source".toList,
        "Source/".toList ++ moduleName m ++ "/Private/".toList ++ moduleName m ++
          "AsyncAction.cpp".toList,
        "cpp".toList, asyncSource m⟩]
   else []) ++
  (if m.enableEditorModule ∧ editorHeader m ≠ [] then
    [⟨"Editor module header".toList,
        "Source/".toList ++ moduleName m ++ "Editor/".toList ++ moduleName m ++
          "Editor.h".toList,
        "cpp".toList, editorHeader m⟩,
     ⟨"Editor module source".toList,
        "Source/".toList ++ moduleName m ++ "Editor/".toList ++ moduleName m ++
          "Editor.cpp".toList,
        "cpp".toList, editorSource m⟩]
   else [])

/-- The full bundle of generator outputs for one state, used to express
determinism of the regeneration pipeline. -/
def allArtifacts (m : PluginMetadata) (fns : List BlueprintFunction) : List Str :=
  [descriptorJson m, moduleHeader m, moduleSource m, buildScript m,
   blueprintHeader m fns, blueprintSource m fns, asyncHeader m, asyncSource m,
   editorHeader m, editorSource m]

/-
  Lemmas about the decimal rendering used by the numeric-suffix
  deduplication and the `Param` fallback names.
-/

/-- The fuelled digit computation agrees with `Nat.digits 10` when enough
fuel is supplied. -/
theorem natDigitsAux_eq_digits : ∀ fuel n, n ≤ fuel → natDigitsAux fuel n = Nat.digits 10 n := by
  intro fuel
  induction fuel with
  | zero =>
    intro n hn
    have hn0 : n = 0 := Nat.le_zero.mp hn
    subst hn0
    simp [natDigitsAux]
  | succ fuel ih =>
    intro n hn
    by_cases h0 : n = 0
    · subst h0
      simp [natDigitsAux]
    · have hpos : 0 < n := Nat.pos_of_ne_zero h0
      have hdiv : n / 10 ≤ fuel := by
        have : n / 10 < n := Nat.div_lt_self hpos (by decide)
        omega
      rw [natDigitsAux, if_neg h0, ih _ hdiv, Nat.digits_def' (by decide : 1 < 10) hpos]

/-- Digit characters are distinct for distinct decimal digits. -/
theorem digitCh_inj : ∀ d1, d1 < 10 → ∀ d2, d2 < 10 → digitCh d1 = digitCh d2 → d1 = d2 := by
  decide

/-- Mapping lists of decimal digits to characters is injective. -/
theorem map_digitCh_inj :
    ∀ l1 l2 : List Nat, (∀ d ∈ l1, d < 10) → (∀ d ∈ l2, d < 10) →
      l1.map digitCh = l2.map digitCh → l1 = l2 := by
  intro l1
  induction l1 with
  | nil =>
    intro l2 _ _ h
    cases l2 with
    | nil => rfl
    | cons b bs => simp at h
  | cons a as ih =>
    intro l2 h1 h2 h
    cases l2 with
    | nil => simp at h
    | cons b bs =>
      simp only [List.map_cons, List.cons.injEq] at h
      have ha : a = b :=
        digitCh_inj a (h1 a (List.mem_cons_self a as)) b (h2 b (List.mem_cons_self b bs)) h.1
      have hrest : as = bs :=
        ih bs (fun d hd => h1 d (List.mem_cons_of_mem _ hd))
          (fun d hd => h2 d (List.mem_cons_of_mem _ hd)) h.2
      rw [ha, hrest]

/-- Decimal renderings are never empty. -/
theorem natRepr_ne_nil (n : Nat) : natRepr n ≠ [] := by
  by_cases h0 : n = 0
  · subst h0
    simp [natRepr]
  · rw [natRepr, if_neg h0, natDigitsAux_eq_digits n n (Nat.le_refl n)]
    have hne : Nat.digits 10 n ≠ [] := Nat.digits_ne_nil_iff_ne_zero.mpr h0
    simp only [ne_eq, List.reverse_eq_nil_iff, List.map_eq_nil_iff]
    exact hne

/-- Decimal rendering is injective: distinct numeric suffixes give
distinct candidate names. -/
theorem natRepr_injective : Function.Injective natRepr := by
  intro a b h
  by_cases ha : a = 0 <;> by_cases hb : b = 0
  · omega
  · exfalso
    rw [natRepr, if_pos ha, natRepr, if_neg hb] at h
    have h2 := h.symm
    rw [natDigitsAux_eq_digits b b (Nat.le_refl b)] at h2
    have hmap : (Nat.digits 10 b).map digitCh = ['0'] := by
      have h3 := congrArg List.reverse h2
      rw [List.reverse_reverse] at h3
      simpa using h3
    obtain ⟨d, hd, hone⟩ : ∃ d, Nat.digits 10 b = [d] ∧ digitCh d = '0' := by
      cases hdig : Nat.digits 10 b with
      | nil => rw [hdig] at hmap; simp at hmap
      | cons x xs =>
        rw [hdig] at hmap
        cases xs with
        | nil =>
          simp only [List.map_cons, List.map_nil, List.cons.injEq, and_true] at hmap
          exact ⟨x, rfl, hmap⟩
        | cons y ys => simp at hmap
    have hdlt : d < 10 := Nat.digits_lt_base (by decide) (by rw [hd]; exact List.mem_cons_self d [])
    have hd0 : d = 0 := digitCh_inj d hdlt 0 (by decide) (by rw [hone]; rfl)
    subst hd0
    have := Nat.ofDigits_digits 10 b
    rw [hd] at this
    simp [Nat.ofDigits] at this
    exact hb this.symm
  · exfalso
    rw [natRepr, if_neg ha, natRepr, if_pos hb] at h
    rw [natDigitsAux_eq_digits a a (Nat.le_refl a)] at h
    have hmap : (Nat.digits 10 a).map digitCh = ['0'] := by
      have h3 := congrArg List.reverse h
      rw [List.reverse_reverse] at h3
      simpa using h3
    obtain ⟨d, hd, hone⟩ : ∃ d, Nat.digits 10 a = [d] ∧ digitCh d = '0' := by
      cases hdig : Nat.digits 10 a with
      | nil => rw [hdig] at hmap; simp at hmap
      | cons x xs =>
        rw [hdig] at hmap
        cases xs with
        | nil =>
          simp only [List.map_cons, List.map_nil, List.cons.injEq, and_true] at hmap
          exact ⟨x, rfl, hmap⟩
        | cons y ys => simp at hmap
    have hdlt : d < 10 := Nat.digits_lt_base (by decide) (by rw [hd]; exact List.mem_cons_self d [])
    have hd0 : d = 0 := digitCh_inj d hdlt 0 (by decide) (by rw [hone]; rfl)
    subst hd0
    have := Nat.ofDigits_digits 10 a
    rw [hd] at this
    simp [Nat.ofDigits] at this
    exact ha this.symm
  · rw [natRepr, if_neg ha, natRepr, if_neg hb] at h
    rw [List.reverse_inj] at h
    rw [natDigitsAux_eq_digits a a (Nat.le_refl a),
      natDigitsAux_eq_digits b b (Nat.le_refl b)] at h
    have hdig : Nat.digits 10 a = Nat.digits 10 b :=
      map_digitCh_inj _ _ (fun d hd => Nat.digits_lt_base (by decide) hd)
        (fun d hd => Nat.digits_lt_base (by decide) hd) h
    have := congrArg (Nat.ofDigits 10) hdig
    rwa [Nat.ofDigits_digits, Nat.ofDigits_digits] at this

/-- The candidates tried by the deduplication loop are pairwise
distinct. -/
theorem uniqueCand_injective (name : Str) : Function.Injective (uniqueCand name) := by
  intro i j h
  unfold uniqueCand at h
  by_cases hi : i = 0 <;> by_cases hj : j = 0
  · omega
  · exfalso
    rw [if_pos hi, if_neg hj] at h
    have := congrArg List.length h
    simp only [List.length_append] at this
    have hnil : natRepr j = [] := List.length_eq_zero.mp (by omega)
    exact natRepr_ne_nil j hnil
  · exfalso
    rw [if_neg hi, if_pos hj] at h
    have := congrArg List.length h
    simp only [List.length_append] at this
    have hnil : natRepr i = [] := List.length_eq_zero.mp (by omega)
    exact natRepr_ne_nil i hnil
  · rw [if_neg hi, if_neg hj, List.append_right_inj] at h
    exact natRepr_injective h

/-- If some candidate within the supplied fuel escapes `taken`, the loop
returns a name outside `taken`. -/
theorem goUnique_not_mem (name : Str) (taken : List Str) :
    ∀ fuel idx, (∃ k, k < fuel ∧ uniqueCand name (idx + k) ∉ taken) →
      goUnique name taken fuel idx ∉ taken := by
  intro fuel
  induction fuel with
  | zero =>
    intro idx h
    obtain ⟨k, hk, _⟩ := h
    omega
  | succ fuel ih =>
    intro idx h
    obtain ⟨k, hk, hout⟩ := h
    rw [goUnique]
    by_cases hmem : uniqueCand name idx ∈ taken
    · rw [if_pos hmem]
      apply ih
      cases k with
      | zero =>
        exfalso
        simp only [Nat.add_zero] at hout
        exact hout hmem
      | succ k' =>
        refine ⟨k', by omega, ?_⟩
        have : idx + 1 + k' = idx + (k' + 1) := by omega
        rw [this]
        exact hout
    · rw [if_neg hmem]
      exact hmem

/-- The source's deduplication: the name returned by
`uniqueParameterName` is not in `taken`, and the updated set is the old
set plus the returned name. -/
theorem uniqueParameterName_spec (name : Str) (taken : List Str) :
    (uniqueParameterName name taken).1 ∉ taken ∧
      (uniqueParameterName name taken).2 = (uniqueParameterName name taken).1 :: taken := by
  refine ⟨?_, rfl⟩
  apply goUnique_not_mem
  by_contra hall
  push_neg at hall
  have hall' : ∀ k, k < taken.length + 1 → uniqueCand name k ∈ taken := by
    intro k hk
    have := hall k hk
    simpa using this
  set L := (List.range (taken.length + 1)).map (uniqueCand name) with hL
  have hnodup : L.Nodup := (List.nodup_range _).map (uniqueCand_injective name)
  have hsub : ∀ x ∈ L, x ∈ taken := by
    intro x hx
    rw [hL] at hx
    obtain ⟨k, hk, rfl⟩ := List.mem_map.mp hx
    exact hall' k (List.mem_range.mp hk)
  have hcard1 : L.toFinset.card = taken.length + 1 := by
    rw [List.toFinset_card_of_nodup hnodup, hL, List.length_map, List.length_range]
  have hsubF : L.toFinset ⊆ taken.toFinset := by
    intro x hx
    rw [List.mem_toFinset] at hx ⊢
    exact hsub x hx
  have hle : L.toFinset.card ≤ taken.toFinset.card := Finset.card_le_card hsubF
  have hle2 : taken.toFinset.card ≤ taken.length := List.toFinset_card_le taken
  omega

/-- Invariant of the per-parameter sanitisation pass: with respect to any
initial `taken` set, the chosen names are fresh, pairwise distinct, and all
recorded in the final `taken` set. -/
theorem sanitizeParams_inv (index : Nat) :
    ∀ (ps : List BlueprintParameter) (taken : List Str),
      (∀ n ∈ (sanitizeParams index ps taken).1.map BlueprintParameter.name, n ∉ taken) ∧
      ((sanitizeParams index ps taken).1.map BlueprintParameter.name).Nodup ∧
      (∀ x ∈ taken, x ∈ (sanitizeParams index ps taken).2) ∧
      (∀ n ∈ (sanitizeParams index ps taken).1.map BlueprintParameter.name,
        n ∈ (sanitizeParams index ps taken).2) := by
  intro ps
  induction ps with
  | nil => intro taken; simp [sanitizeParams]
  | cons p rest ih =>
    intro taken
    have hu := uniqueParameterName_spec
      (if sanitiseIdentifier p.name = [] then "Param".toList ++ natRepr index
       else sanitiseIdentifier p.name) taken
    set u := uniqueParameterName
      (if sanitiseIdentifier p.name = [] then "Param".toList ++ natRepr index
       else sanitiseIdentifier p.name) taken with hudef
    obtain ⟨hufresh, husnd⟩ := hu
    have hrec := ih u.2
    have hstep : sanitizeParams index (p :: rest) taken =
        (⟨u.1, if jsTrim p.type = [] then "float".toList else jsTrim p.type⟩ ::
          (sanitizeParams index rest u.2).1, (sanitizeParams index rest u.2).2) := by
      rw [sanitizeParams]
    rw [hstep]
    obtain ⟨ih1, ih2, ih3, ih4⟩ := hrec
    rw [husnd] at ih1 ih3
    refine ⟨?_, ?_, ?_, ?_⟩
    · intro n hn
      simp only [List.map_cons, List.mem_cons] at hn
      cases hn with
      | inl hE => rw [hE]; exact hufresh
      | inr hR =>
        intro hmem
        exact ih1 n hR (List.mem_cons_of_mem _ hmem)
    · simp only [List.map_cons, List.nodup_cons]
      refine ⟨?_, ih2⟩
      intro hmem
      exact ih1 u.1 hmem (List.mem_cons_self _ _)
    · intro x hx
      exact ih3 x (List.mem_cons_of_mem _ hx)
    · intro n hn
      simp only [List.map_cons, List.mem_cons] at hn
      cases hn with
      | inl hE =>
        rw [hE]
        exact ih3 u.1 (List.mem_cons_self _ _)
      | inr hR => exact ih4 n hR

/-- In a duplicate-free list containing `x`, exactly one element equals
`x`. -/
theorem filter_self_length_one {x : Str} :
    ∀ l : List Str, l.Nodup → x ∈ l → (l.filter (fun n => n = x)).length = 1 := by
  intro l
  induction l with
  | nil => intro _ h; simp at h
  | cons a t ih =>
    intro hnd hmem
    rw [List.nodup_cons] at hnd
    by_cases hax : a = x
    · subst hax
      rw [List.filter_cons_of_pos (by simp)]
      have hnil : t.filter (fun n => n = a) = [] := by
        rw [List.filter_eq_nil_iff]
        intro b hb
        simp only [decide_eq_true_eq]
        intro hba
        rw [hba] at hb
        exact hnd.1 hb
      rw [hnil]
      rfl
    · rcases List.mem_cons.mp hmem with h1 | h2
      · exact absurd h1.symm hax
      · rw [List.filter_cons_of_neg (by simp [hax])]
        exact ih hnd.2 h2

/-- A duplicate-free list not containing `x`, prefixed with `x`, has
exactly one element equal to `x`. -/
theorem filter_cons_self_length_one {x : Str} :
    ∀ l : List Str, x ∉ l → ((x :: l).filter (fun n => n = x)).length = 1 := by
  intro l hx
  rw [List.filter_cons_of_pos (by simp)]
  have hnil : l.filter (fun n => n = x) = [] := by
    rw [List.filter_eq_nil_iff]
    intro b hb
    simp only [decide_eq_true_eq]
    intro hbx
    rw [hbx] at hb
    exact hx hb
  rw [hnil]
  rfl

/-- Structure of the parameters of one normalized endpoint: distinct
names, nonempty, exactly one context-named parameter, and the context
parameter is prepended whenever no sanitized name is already
`WorldContextObject`. -/
theorem normalizeOne_spec (friendly : Str) (index : Nat) (fn : BlueprintFunction) :
    ((normalizeOne friendly index fn).parameters.map BlueprintParameter.name).Nodup ∧
    (normalizeOne friendly index fn).parameters ≠ [] ∧
    (((normalizeOne friendly index fn).parameters.map BlueprintParameter.name).filter
      (fun n => n = "WorldContextObject".toList)).length = 1 ∧
    ("WorldContextObject".toList ∉
        (sanitizeParams index fn.parameters []).1.map BlueprintParameter.name →
      (normalizeOne friendly index fn).parameters =
        worldContextParam :: (sanitizeParams index fn.parameters []).1) := by
  obtain ⟨-, hnodup, -, -⟩ := sanitizeParams_inv index fn.parameters []
  by_cases hmem : "WorldContextObject".toList ∈
      (sanitizeParams index fn.parameters []).1.map BlueprintParameter.name
  · have hpar : (normalizeOne friendly index fn).parameters =
        (sanitizeParams index fn.parameters []).1 := by
      show (if "WorldContextObject".toList ∈
          (sanitizeParams index fn.parameters []).1.map BlueprintParameter.name then
            ((sanitizeParams index fn.parameters []).1, true)
          else (worldContextParam :: (sanitizeParams index fn.parameters []).1, true)).1 =
        (sanitizeParams index fn.parameters []).1
      rw [if_pos hmem]
    rw [hpar]
    refine ⟨hnodup, ?_, ?_, ?_⟩
    · intro hnil
      rw [hnil] at hmem
      simp at hmem
    · exact filter_self_length_one _ hnodup hmem
    · intro hno
      exact absurd hmem hno
  · have hpar : (normalizeOne friendly index fn).parameters =
        worldContextParam :: (sanitizeParams index fn.parameters []).1 := by
      show (if "WorldContextObject".toList ∈
          (sanitizeParams index fn.parameters []).1.map BlueprintParameter.name then
            ((sanitizeParams index fn.parameters []).1, true)
          else (worldContextParam :: (sanitizeParams index fn.parameters []).1, true)).1 =
        worldContextParam :: (sanitizeParams index fn.parameters []).1
      rw [if_neg hmem]
    rw [hpar]
    refine ⟨?_, by simp, ?_, fun _ => rfl⟩
    · simp only [List.map_cons, List.nodup_cons]
      exact ⟨hmem, hnodup⟩
    · simp only [List.map_cons]
      exact filter_cons_self_length_one _ hmem

/-- Members of an indexed map arise from one position of the input list. -/
theorem mem_mapWithIndexFrom {α β : Type} {f : Nat → α → β} :
    ∀ (l : List α) (start : Nat) (b : β), b ∈ mapWithIndexFrom f start l →
      ∃ k a, l.get? k = some a ∧ b = f (start + k) a := by
  intro l
  induction l with
  | nil => intro start b h; simp [mapWithIndexFrom] at h
  | cons a rest ih =>
    intro start b h
    rw [mapWithIndexFrom] at h
    rcases List.mem_cons.mp h with hhead | htail
    · exact ⟨0, a, rfl, by simpa using hhead⟩
    · obtain ⟨k, a', hget, hb⟩ := ih (start + 1) b htail
      refine ⟨k + 1, a', by simpa using hget, ?_⟩
      rw [hb]
      congr 1
      omega

/-- C1 (amended): every NormalizedEndpoint produced by the normalizer has
a parameter-name list with no duplicate names and at least one parameter;
exactly one parameter bears the fixed context name `WorldContextObject`;
and whenever no sanitized, de-duplicated parameter name of the endpoint is
already exactly `WorldContextObject`, a context parameter with that fixed
name and fixed type `UObject*` is prepended as the first parameter. -/
theorem claim_C1_normalized_parameter_invariants (friendly : Str)
    (fns : List BlueprintFunction) (ne : NormalizedEndpoint)
    (h : ne ∈ normalizedBlueprintFunctions friendly fns) :
    (ne.parameters.map BlueprintParameter.name).Nodup ∧
    ne.parameters ≠ [] ∧
    ((ne.parameters.map BlueprintParameter.name).filter
      (fun n => n = "WorldContextObject".toList)).length = 1 ∧
    ∃ index fn, fns.get? index = some fn ∧ ne = normalizeOne friendly index fn ∧
      ("WorldContextObject".toList ∉
          (sanitizeParams index fn.parameters []).1.map BlueprintParameter.name →
        ne.parameters = worldContextParam :: (sanitizeParams index fn.parameters []).1) := by
  obtain ⟨k, fn, hget, hb⟩ := mem_mapWithIndexFrom fns 0 ne h
  simp only [Nat.zero_add] at hb
  obtain ⟨h1, h2, h3, h4⟩ := normalizeOne_spec friendly k fn
  subst hb
  exact ⟨h1, h2, h3, k, fn, hget, rfl, h4⟩

/-- Endpoint whose single parameter is not named exactly
`WorldContextObject` but sanitizes to that name. -/
def contextNameCollisionFn : BlueprintFunction :=
  { name := "Ping".toList
    returnType := "void".toList
    description := []
    parameters := [⟨"WorldContextObject!".toList, "int".toList⟩] }

/-- C1 counterexample: no user-supplied parameter of
`contextNameCollisionFn` is named exactly `WorldContextObject`, yet the
normalizer does not prepend the fixed context parameter of type
`UObject*` — the produced endpoint has a single parameter of type `int`,
because the presence test is performed on sanitized names. -/
theorem claim_C1_counterexample :
    (∀ p ∈ contextNameCollisionFn.parameters, p.name ≠ "WorldContextObject".toList) ∧
    (normalizedBlueprintFunctions "Nebula Toolkit".toList [contextNameCollisionFn]).map
        NormalizedEndpoint.parameters =
      [[⟨"WorldContextObject".toList, "int".toList⟩]] := by
  decide

/-- Endpoint used by the closed C1 witness: a blank return type and two
parameters that sanitize to the same name. -/
def collidingWitnessFn : BlueprintFunction :=
  { name := "Go Fast".toList
    returnType := []
    description := "d".toList
    parameters := [⟨"target".toList, " ".toList⟩, ⟨"target!".toList, "int".toList⟩] }

/-- Closed instance of C1 at a concrete endpoint list. -/
theorem claim_C1_witness :
    ((normalizeOne "F".toList 0 collidingWitnessFn).parameters.map
      BlueprintParameter.name).Nodup ∧
    (normalizeOne "F".toList 0 collidingWitnessFn).parameters ≠ [] ∧
    (((normalizeOne "F".toList 0 collidingWitnessFn).parameters.map
      BlueprintParameter.name).filter
        (fun n => n = "WorldContextObject".toList)).length = 1 ∧
    ∃ index fn, [collidingWitnessFn].get? index = some fn ∧
      normalizeOne "F".toList 0 collidingWitnessFn = normalizeOne "F".toList index fn ∧
      ("WorldContextObject".toList ∉
          (sanitizeParams index fn.parameters []).1.map BlueprintParameter.name →
        (normalizeOne "F".toList 0 collidingWitnessFn).parameters =
          worldContextParam :: (sanitizeParams index fn.parameters []).1) :=
  claim_C1_normalized_parameter_invariants "F".toList [collidingWitnessFn]
    (normalizeOne "F".toList 0 collidingWitnessFn) (by decide)

/-- C2: every artifact generator is a deterministic pure function of the
metadata record and the endpoint list: recomputing the full artifact
bundle from identical inputs yields byte-identical text for every
artifact. -/
theorem claim_C2_artifact_determinism (m1 m2 : PluginMetadata)
    (f1 f2 : List BlueprintFunction) (hm : m1 = m2) (hf : f1 = f2) :
    allArtifacts m1 f1 = allArtifacts m2 f2 := by
  subst hm
  subst hf
  rfl

/-- Closed instance of C2 at the default workbench state. -/
theorem claim_C2_witness :
    allArtifacts defaultMetadata defaultFunctions =
      allArtifacts defaultMetadata defaultFunctions :=
  claim_C2_artifact_determinism defaultMetadata defaultMetadata
    defaultFunctions defaultFunctions rfl rfl

/-- C3 counterexample: with the plugin code name set to the empty string,
the module base name is the fallback `"AddonModule"`, not the empty
string. -/
theorem claim_C3_counterexample :
    ({ defaultMetadata with pluginName := [] } : PluginMetadata).pluginName = [] ∧
    moduleName { defaultMetadata with pluginName := [] } ≠ [] := by
  decide

/-- C3 (amended): when the plugin code name is the empty string, the
identifier derivation falls back to the default code name `"AddonModule"`
(so the derived identifiers take the corresponding fallback values) and no
error is raised — every derivation is total. -/
theorem claim_C3_empty_code_name_fallback (m : PluginMetadata)
    (h : m.pluginName = []) :
    moduleName m = "AddonModule".toList ∧
    moduleApiMacro m = "ADDON_MODULE_API".toList ∧
    logCategory m = "LogAddonModule".toList ∧
    moduleClass m = "FAddonModuleModule".toList ∧
    blueprintClass m = "UAddonModuleBlueprintLibrary".toList ∧
    asyncActionClass m = "UAddonModuleAsyncAction".toList := by
  have hm : moduleName m = "AddonModule".toList := by
    unfold moduleName
    rw [h]
    decide
  refine ⟨hm, ?_, ?_, ?_, ?_, ?_⟩
  · unfold moduleApiMacro
    rw [hm]
    decide
  · unfold logCategory
    rw [hm]
    decide
  · unfold moduleClass
    rw [hm]
    decide
  · unfold blueprintClass
    rw [hm]
    decide
  · unfold asyncActionClass
    rw [hm]
    decide

/-- Closed instance of C3 (amended) at a concrete metadata record. -/
theorem claim_C3_witness :
    moduleName { defaultMetadata with pluginName := [] } = "AddonModule".toList ∧
    moduleApiMacro { defaultMetadata with pluginName := [] } = "ADDON_MODULE_API".toList ∧
    logCategory { defaultMetadata with pluginName := [] } = "LogAddonModule".toList ∧
    moduleClass { defaultMetadata with pluginName := [] } = "FAddonModuleModule".toList ∧
    blueprintClass { defaultMetadata with pluginName := [] } =
      "UAddonModuleBlueprintLibrary".toList ∧
    asyncActionClass { defaultMetadata with pluginName := [] } =
      "UAddonModuleAsyncAction".toList :=
  claim_C3_empty_code_name_fallback { defaultMetadata with pluginName := [] } rfl

/-- The head of a `dropWhile` result never satisfies the dropped
predicate. -/
theorem dropWhile_head_false {p : Char → Bool} :
    ∀ (l : Str) (c : Char) (cs : Str), l.dropWhile p = c :: cs → p c = false := by
  intro l
  induction l with
  | nil => intro c cs h; simp [List.dropWhile] at h
  | cons a t ih =>
    intro c cs h
    rw [List.dropWhile_cons] at h
    by_cases hpa : p a
    · rw [if_pos hpa] at h
      exact ih c cs h
    · rw [if_neg hpa] at h
      cases h
      exact Bool.eq_false_iff.mpr hpa

/-- Identifier-leading characters are never digits. -/
theorem isLead_not_digit {c : Char} (h : isLeadCh c = true) : isDigitCh c = false := by
  rw [Bool.eq_false_iff]
  intro hd
  simp only [isDigitCh, Bool.and_eq_true, decide_eq_true_eq] at hd
  simp only [isLeadCh, isUpperCh, isLowerCh, Bool.or_eq_true, Bool.and_eq_true,
    decide_eq_true_eq, beq_iff_eq] at h
  rcases h with (h | h) | h
  · omega
  · omega
  · rw [h] at hd
    have h95 : ('_').toNat = 95 := rfl
    omega

/-- C6: for every input string, the output of `sanitiseIdentifier`
contains only characters of `[A-Za-z0-9_]`, and when it is nonempty its
first character is a letter or an underscore. -/
theorem claim_C6_sanitize_identifier (value : Str) :
    (∀ c ∈ sanitiseIdentifier value, isIdentCh c = true) ∧
    (∀ c cs, sanitiseIdentifier value = c :: cs → isLeadCh c = true) := by
  have hmem : ∀ c ∈ (value.filter isIdentCh).dropWhile (fun c => !isLeadCh c),
      isIdentCh c = true := by
    intro c hc
    have hc1 : c ∈ value.filter isIdentCh :=
      List.Sublist.mem hc (List.dropWhile_sublist _)
    exact (List.mem_filter.mp hc1).2
  cases hs2 : (value.filter isIdentCh).dropWhile (fun c => !isLeadCh c) with
  | nil =>
    have hout : sanitiseIdentifier value = [] := by
      simp only [sanitiseIdentifier]
      rw [hs2]
    refine ⟨?_, ?_⟩
    · intro c hc
      rw [hout] at hc
      simp at hc
    · intro c cs he
      rw [hout] at he
      simp at he
  | cons c cs =>
    have hpc : (fun x => !isLeadCh x) c = false := dropWhile_head_false _ c cs hs2
    have hlead : isLeadCh c = true := by simpa using hpc
    have hdig : isDigitCh c = false := isLead_not_digit hlead
    have hout : sanitiseIdentifier value = c :: cs := by
      simp only [sanitiseIdentifier]
      rw [hs2]
      simp [hdig]
    rw [hout]
    refine ⟨?_, ?_⟩
    · intro x hx
      apply hmem
      rw [hs2]
      exact hx
    · intro c' cs' he
      cases he
      exact hlead

/-- Closed instance of C6 on a concrete input whose sanitised form is
nonempty. -/
theorem claim_C6_witness :
    isLeadCh 'a' = true ∧
    (∀ c ∈ sanitiseIdentifier "9a b!".toList, isIdentCh c = true) :=
  ⟨(claim_C6_sanitize_identifier "9a b!".toList).2 'a' "b".toList (by decide),
   (claim_C6_sanitize_identifier "9a b!".toList).1⟩

/-- Packing a small code point into a character preserves its value. -/
theorem toNat_ofNat_small {k : Nat} (hk : k < 55296) : (Char.ofNat k).toNat = k := by
  rw [Char.ofNat, dif_pos (Or.inl hk)]
  rfl

/-- On lower-case letters, `Char.toUpper` subtracts 32 from the code
point. -/
theorem toUpper_toNat_of_lower {c : Char} (h1 : 97 ≤ c.toNat) (h2 : c.toNat ≤ 122) :
    (Char.toUpper c).toNat = c.toNat - 32 := by
  rw [Char.toUpper]
  rw [if_pos ⟨h1, h2⟩]
  exact toNat_ofNat_small (by omega)

/-- Outside the lower-case range, `Char.toUpper` is the identity. -/
theorem toUpper_eq_self {c : Char} (h : ¬(c.toNat ≥ 97 ∧ c.toNat ≤ 122)) :
    Char.toUpper c = c := by
  rw [Char.toUpper]
  rw [if_neg h]

/-- Upper-casing is idempotent. -/
theorem toUpper_idem (c : Char) : Char.toUpper (Char.toUpper c) = Char.toUpper c := by
  by_cases hl : c.toNat ≥ 97 ∧ c.toNat ≤ 122
  · have ht : (Char.toUpper c).toNat = c.toNat - 32 := toUpper_toNat_of_lower hl.1 hl.2
    apply toUpper_eq_self
    rw [ht]
    omega
  · rw [toUpper_eq_self hl]
    exact toUpper_eq_self hl

/-- Upper-casing preserves the alphanumeric character class. -/
theorem toUpper_alnum {c : Char} (h : isAlnumCh c = true) :
    isAlnumCh (Char.toUpper c) = true := by
  by_cases hl : c.toNat ≥ 97 ∧ c.toNat ≤ 122
  · have ht : (Char.toUpper c).toNat = c.toNat - 32 := toUpper_toNat_of_lower hl.1 hl.2
    simp only [isAlnumCh, isDigitCh, isUpperCh, isLowerCh, Bool.or_eq_true,
      Bool.and_eq_true, decide_eq_true_eq]
    rw [ht]
    omega
  · rw [toUpper_eq_self hl]
    exact h

/-- Splitting a list with no separator characters gives back the list as a
single piece. -/
theorem splitOnCh_no_sep {p : Char → Bool} :
    ∀ l : Str, (∀ c ∈ l, p c = false) → splitOnCh p l = [l] := by
  intro l
  induction l with
  | nil => intro _; rfl
  | cons a t ih =>
    intro h
    have ht : splitOnCh p t = [t] := ih (fun c hc => h c (List.mem_cons_of_mem _ hc))
    have hpa : p a = false := h a (List.mem_cons_self _ _)
    rw [splitOnCh, ht]
    simp [hpa]

/-- On nonempty all-alphanumeric input, `toPascalCase` only capitalises
the first character. -/
theorem toPascalCase_all_alnum (x : Str) (h : ∀ c ∈ x, isAlnumCh c = true)
    (hne : x ≠ []) : toPascalCase x = capSegment x := by
  unfold toPascalCase
  rw [splitOnCh_no_sep x (by intro c hc; rw [h c hc]; rfl)]
  simp [hne]

/-- C7: on input consisting only of alphanumeric characters (the output
alphabet of the capitalisation), `toPascalCase` is idempotent. -/
theorem claim_C7_pascal_case_idempotent (x : Str)
    (h : ∀ c ∈ x, isAlnumCh c = true) :
    toPascalCase (toPascalCase x) = toPascalCase x := by
  by_cases hne : x = []
  · subst hne
    rfl
  · rw [toPascalCase_all_alnum x h hne]
    cases x with
    | nil => exact absurd rfl hne
    | cons c cs =>
      have hcap : ∀ a ∈ capSegment (c :: cs), isAlnumCh a = true := by
        intro a ha
        rcases List.mem_cons.mp ha with h1 | h2
        · rw [h1]
          exact toUpper_alnum (h c (List.mem_cons_self _ _))
        · exact h a (List.mem_cons_of_mem _ h2)
      rw [toPascalCase_all_alnum _ hcap (by simp [capSegment])]
      show Char.toUpper (Char.toUpper c) :: cs = Char.toUpper c :: cs
      rw [toUpper_idem]

/-- Closed instance of C7 on a concrete alphanumeric string. -/
theorem claim_C7_witness :
    toPascalCase (toPascalCase "helloWorld42".toList) = toPascalCase "helloWorld42".toList :=
  claim_C7_pascal_case_idempotent "helloWorld42".toList (by decide)

/-- C10: when an endpoint's name sanitises to the empty string, the
normalizer substitutes the fixed display name `GeneratedFunction`, so the
display identifier is never empty. -/
theorem claim_C10_empty_name_fallback (friendly : Str) (index : Nat)
    (fn : BlueprintFunction) (h : sanitiseIdentifier fn.name = []) :
    (normalizeOne friendly index fn).displayName = "GeneratedFunction".toList ∧
    (normalizeOne friendly index fn).displayName ≠ [] := by
  have hd : (normalizeOne friendly index fn).displayName =
      toPascalCase (if sanitiseIdentifier fn.name = [] then "GeneratedFunction".toList
        else sanitiseIdentifier fn.name) := rfl
  rw [hd, if_pos h]
  refine ⟨by decide, by decide⟩

/-- Endpoint whose name has no identifier characters at all. -/
def unparsableNameFn : BlueprintFunction :=
  { name := "!!!".toList
    returnType := "void".toList
    description := []
    parameters := [] }

/-- Closed instance of C10. -/
theorem claim_C10_witness :
    (normalizeOne "F".toList 0 unparsableNameFn).displayName = "GeneratedFunction".toList ∧
    (normalizeOne "F".toList 0 unparsableNameFn).displayName ≠ [] :=
  claim_C10_empty_name_fallback "F".toList 0 unparsableNameFn (by decide)

/-- The push-style accumulation of the `forEach` parameter loop equals a
`filterMap` over the entries. -/
theorem foldl_push_eq_filterMap (g : Str → Option BlueprintParameter) :
    ∀ (entries : List Str) (acc : List BlueprintParameter),
      entries.foldl (fun acc e => acc ++ (g e).toList) acc =
        acc ++ entries.filterMap g := by
  intro entries
  induction entries with
  | nil => intro acc; simp
  | cons e t ih =>
    intro acc
    rw [List.foldl_cons, ih, List.filterMap_cons]
    cases hge : g e
    · simp [hge]
    · simp [hge]

/-- C8: with a nonblank function name, the add-endpoint operation appends
exactly one EndpointSpec to the existing list (leaving it otherwise
unchanged); its parameter list consists, in draft order, of one parameter
per well-formed `name:type` entry of the comma-separated draft, while
malformed entries (missing name or missing type) are silently dropped by
`parsePair`. -/
theorem claim_C8_add_endpoint_parsing (existing : List BlueprintFunction)
    (n r d draft : Str) (h : jsTrim n ≠ []) :
    handleAddBlueprintFunction existing n r d draft =
      existing ++
        [{ name := jsTrim n
           returnType := if jsTrim r = [] then "void".toList else jsTrim r
           description := if jsTrim d = [] then "Generated function.".toList else jsTrim d
           parameters :=
             (((splitOnCh (fun c => c == ',') draft).map jsTrim).filter
               (fun e => e ≠ [])).filterMap parsePair }] := by
  unfold handleAddBlueprintFunction
  rw [if_neg h]
  simp only [parseParameterDraft, foldl_push_eq_filterMap, List.nil_append]

/-- Parameter draft exercising every malformed shape next to well-formed
entries. -/
def mixedDraft : Str := "a:int, bad, :int, x: , speed:float:extra".toList

/-- Closed instance of C8: the two well-formed entries survive in order,
the three malformed ones are dropped. -/
theorem claim_C8_witness :
    handleAddBlueprintFunction [] "F".toList [] [] mixedDraft =
      [] ++
        [{ name := jsTrim "F".toList
           returnType := if jsTrim [] = [] then "void".toList else jsTrim []
           description := if jsTrim [] = [] then "Generated function.".toList else jsTrim []
           parameters :=
             (((splitOnCh (fun c => c == ',') mixedDraft).map jsTrim).filter
               (fun e => e ≠ [])).filterMap parsePair }] :=
  claim_C8_add_endpoint_parsing [] "F".toList [] [] mixedDraft (by decide)

/-- Sanitised parameter types, position by position: a blank raw type
becomes `"float"`. -/
theorem sanitizeParams_type_at (index : Nat) :
    ∀ (ps : List BlueprintParameter) (taken : List Str) (k : Nat) (hk : k < ps.length),
      jsTrim (ps.get ⟨k, hk⟩).type = [] →
      ∃ hk2 : k < (sanitizeParams index ps taken).1.length,
        ((sanitizeParams index ps taken).1.get ⟨k, hk2⟩).type = "float".toList := by
  intro ps
  induction ps with
  | nil => intro taken k hk; intro _; exact absurd hk (by simp)
  | cons p rest ih =>
    intro taken k hk htype
    rw [sanitizeParams]
    cases k with
    | zero =>
      refine ⟨by simp, ?_⟩
      show (if jsTrim p.type = [] then "float".toList else jsTrim p.type) = "float".toList
      rw [if_pos (show jsTrim p.type = [] from htype)]
    | succ k' =>
      have hk' : k' < rest.length := by simpa using hk
      have htype' : jsTrim (rest.get ⟨k', hk'⟩).type = [] := htype
      obtain ⟨h2, hres⟩ := ih _ k' hk' htype'
      exact ⟨by simpa using h2, hres⟩

/-- The normalized parameter list is the sanitised list, possibly with the
context parameter prepended. -/
theorem normalizeOne_parameters_cases (friendly : Str) (index : Nat)
    (fn : BlueprintFunction) :
    (normalizeOne friendly index fn).parameters = (sanitizeParams index fn.parameters []).1 ∨
    (normalizeOne friendly index fn).parameters =
      worldContextParam :: (sanitizeParams index fn.parameters []).1 := by
  by_cases hmem : "WorldContextObject".toList ∈
      (sanitizeParams index fn.parameters []).1.map BlueprintParameter.name
  · left
    show (if "WorldContextObject".toList ∈
        (sanitizeParams index fn.parameters []).1.map BlueprintParameter.name then
          ((sanitizeParams index fn.parameters []).1, true)
        else (worldContextParam :: (sanitizeParams index fn.parameters []).1, true)).1 =
      (sanitizeParams index fn.parameters []).1
    rw [if_pos hmem]
  · right
    show (if "WorldContextObject".toList ∈
        (sanitizeParams index fn.parameters []).1.map BlueprintParameter.name then
          ((sanitizeParams index fn.parameters []).1, true)
        else (worldContextParam :: (sanitizeParams index fn.parameters []).1, true)).1 =
      worldContextParam :: (sanitizeParams index fn.parameters []).1
    rw [if_neg hmem]

/-- C9: every endpoint parameter whose raw type string is blank (empty or
whitespace-only) receives the default type `"float"` at its position in
the sanitised list, and the normalized endpoint's parameters are exactly
that sanitised list, possibly preceded by the injected context
parameter — so the blank-typed parameter reaches every generated
declaration and definition with type `"float"`. -/
theorem claim_C9_blank_type_defaults_float (friendly : Str) (index : Nat)
    (fn : BlueprintFunction) :
    (∀ (k : Nat) (hk : k < fn.parameters.length),
      jsTrim (fn.parameters.get ⟨k, hk⟩).type = [] →
      ∃ hk2 : k < (sanitizeParams index fn.parameters []).1.length,
        ((sanitizeParams index fn.parameters []).1.get ⟨k, hk2⟩).type = "float".toList) ∧
    ((normalizeOne friendly index fn).parameters = (sanitizeParams index fn.parameters []).1 ∨
      (normalizeOne friendly index fn).parameters =
        worldContextParam :: (sanitizeParams index fn.parameters []).1) :=
  ⟨fun k hk htype => sanitizeParams_type_at index fn.parameters [] k hk htype,
   normalizeOne_parameters_cases friendly index fn⟩

/-- Closed instance of C9: the first parameter of `collidingWitnessFn` has
whitespace-only type and is normalised to type `"float"`. -/
theorem claim_C9_witness :
    (∃ hk2 : 0 < (sanitizeParams 0 collidingWitnessFn.parameters []).1.length,
      ((sanitizeParams 0 collidingWitnessFn.parameters []).1.get ⟨0, hk2⟩).type =
        "float".toList) ∧
    ((normalizeOne "F".toList 0 collidingWitnessFn).parameters =
        (sanitizeParams 0 collidingWitnessFn.parameters []).1 ∨
      (normalizeOne "F".toList 0 collidingWitnessFn).parameters =
        worldContextParam :: (sanitizeParams 0 collidingWitnessFn.parameters []).1) :=
  ⟨(claim_C9_blank_type_defaults_float "F".toList 0 collidingWitnessFn).1 0
      (by decide) (by decide),
   (claim_C9_blank_type_defaults_float "F".toList 0 collidingWitnessFn).2⟩

/-- Auxiliary: an artifact whose title is not one of the async titles is
rejected by the async-title filter. -/
theorem title_filter_neg {t f l c : Str} (h1 : t ≠ "Async action header".toList)
    (h2 : t ≠ "Async action source".toList) :
    ¬(decide ((GeneratedArtifact.mk t f l c).title = "Async action header".toList ∨
        (GeneratedArtifact.mk t f l c).title = "Async action source".toList) = true) := by
  simp only [decide_eq_true_eq]
  intro hc
  rcases hc with hc | hc
  · exact h1 hc
  · exact h2 hc

/-- C4: the descriptor contains an editor-module entry exactly when the
editor-module flag is set, and that entry's load phase is the fixed value
`"Default"` regardless of the runtime module's selected phase; when the
async-action flag is disabled, the descriptor's `Plugins` dependency list
is empty (so contains no `GameplayTasks` entry) and no async-action
artifact pair is produced. -/
theorem claim_C4_descriptor_conditionals (m : PluginMetadata)
    (fns : List BlueprintFunction) :
    (((descriptorModules m).filter (fun e => e.Typ = "Editor".toList)).length =
      if m.enableEditorModule then 1 else 0) ∧
    (∀ e ∈ descriptorModules m, e.Typ = "Editor".toList →
      e.LoadingPhase = "Default".toList ∧ e.Name = moduleName m ++ "Editor".toList) ∧
    (m.enableAsyncActions = false →
      descriptorPlugins m = [] ∧
      asyncHeader m = [] ∧ asyncSource m = [] ∧
      (producedArtifacts m fns).filter
        (fun a => a.title = "Async action header".toList ∨
          a.title = "Async action source".toList) = []) := by
  have hneRT : ¬(("Runtime".toList : Str) = "Editor".toList) := by decide
  refine ⟨?_, ?_, ?_⟩
  · rw [descriptorModules]
    cases hEd : m.enableEditorModule
    · rw [if_neg (by simp [hEd]), List.append_nil]
      have h1 : decide ((⟨moduleName m, "Runtime".toList, phaseStr m.loadingPhase⟩ :
          ModuleEntry).Typ = "Editor".toList) = false := decide_eq_false hneRT
      simp [List.filter_cons, h1, hEd]
    · rw [if_pos (by simp [hEd]), List.singleton_append]
      have h1 : decide ((⟨moduleName m, "Runtime".toList, phaseStr m.loadingPhase⟩ :
          ModuleEntry).Typ = "Editor".toList) = false := decide_eq_false hneRT
      have h2 : decide ((⟨moduleName m ++ "Editor".toList, "Editor".toList,
          "Default".toList⟩ : ModuleEntry).Typ = "Editor".toList) = true :=
        decide_eq_true rfl
      simp [List.filter_cons, h1, h2, hEd]
  · intro e he hTyp
    rw [descriptorModules] at he
    rcases List.mem_append.mp he with h1 | h2
    · rw [List.mem_singleton] at h1
      subst h1
      have hne : ("Runtime".toList : Str) ≠ "Editor".toList := by decide
      exact absurd hTyp hne
    · by_cases hEd : m.enableEditorModule = true
      · rw [if_pos hEd, List.mem_singleton] at h2
        subst h2
        exact ⟨rfl, rfl⟩
      · rw [if_neg hEd] at h2
        simp at h2
  · intro h
    have hplug : descriptorPlugins m = [] := by
      rw [descriptorPlugins, if_neg (by simp [h])]
    have hah : asyncHeader m = [] := by
      rw [asyncHeader, if_pos (by simp [h])]
    have has : asyncSource m = [] := by
      rw [asyncSource, if_pos (by simp [h])]
    refine ⟨hplug, hah, has, ?_⟩
    rw [List.filter_eq_nil_iff]
    intro a ha
    rw [producedArtifacts] at ha
    rcases List.mem_append.mp ha with h3 | hEdB
    · rcases List.mem_append.mp h3 with h2 | hAsB
      · rcases List.mem_append.mp h2 with hBase | hBpB
        · simp only [List.mem_cons, List.not_mem_nil, or_false] at hBase
          rcases hBase with rfl | rfl | rfl | rfl <;>
            exact title_filter_neg (by decide) (by decide)
        · by_cases hc : m.enableBlueprintLibrary ∧ blueprintHeader m fns ≠ []
          · rw [if_pos hc] at hBpB
            simp only [List.mem_cons, List.not_mem_nil, or_false] at hBpB
            rcases hBpB with rfl | rfl <;>
              exact title_filter_neg (by decide) (by decide)
          · rw [if_neg hc] at hBpB
            simp at hBpB
      · rw [if_neg (by simp [h])] at hAsB
        simp at hAsB
    · by_cases hc : m.enableEditorModule ∧ editorHeader m ≠ []
      · rw [if_pos hc] at hEdB
        simp only [List.mem_cons, List.not_mem_nil, or_false] at hEdB
        rcases hEdB with rfl | rfl <;>
          exact title_filter_neg (by decide) (by decide)
      · rw [if_neg hc] at hEdB
        simp at hEdB

/-- The default metadata with async actions disabled. -/
def asyncOffMeta : PluginMetadata := { defaultMetadata with enableAsyncActions := false }

/-- Closed instance of C4 with the async-action flag disabled, plus the
fixed editor load phase at the concrete editor entry. -/
theorem claim_C4_witness :
    (descriptorPlugins asyncOffMeta = [] ∧
      asyncHeader asyncOffMeta = [] ∧ asyncSource asyncOffMeta = [] ∧
      (producedArtifacts asyncOffMeta defaultFunctions).filter
        (fun a => a.title = "Async action header".toList ∨
          a.title = "Async action source".toList) = []) ∧
    (⟨moduleName asyncOffMeta ++ "Editor".toList, "Editor".toList,
        "Default".toList⟩ : ModuleEntry).LoadingPhase = "Default".toList :=
  ⟨(claim_C4_descriptor_conditionals asyncOffMeta defaultFunctions).2.2 rfl,
   ((claim_C4_descriptor_conditionals asyncOffMeta defaultFunctions).2.1
      ⟨moduleName asyncOffMeta ++ "Editor".toList, "Editor".toList, "Default".toList⟩
      (by decide) (by decide)).1⟩

/-- C5: the build script starts from the fixed base dependency sets
(public `Core`, `CoreUObject`, `Engine`; private `Slate`, `SlateCore`),
adds `Kismet`/`UMG` for the function library, `GameplayTasks` for async
actions and `UnrealEd`/`LevelSequence` for the editor module, renders each
set sorted, and carries the editor-only dependencies inside a
`Target.bBuildEditor` conditional block. -/
theorem claim_C5_build_script_dependencies (m : PluginMetadata) :
    (sortStrs (publicDeps m)).Perm
      (["Core".toList, "CoreUObject".toList, "Engine".toList] ++
        (if m.enableBlueprintLibrary then ["Kismet".toList] else []) ++
        (if m.enableAsyncActions then ["GameplayTasks".toList] else [])) ∧
    List.Pairwise (fun a b => lexLe a b = true) (sortStrs (publicDeps m)) ∧
    (sortStrs (privateDeps m)).Perm
      (["Slate".toList, "SlateCore".toList] ++
        (if m.enableBlueprintLibrary then ["UMG".toList] else []) ++
        (if m.enableEditorModule then ["UnrealEd".toList, "LevelSequence".toList]
         else [])) ∧
    List.Pairwise (fun a b => lexLe a b = true) (sortStrs (privateDeps m)) ∧
    ∃ l r, buildScript m = l ++ editorGatedBlock ++ r := by
  refine ⟨?_, ?_, ?_, ?_, ⟨buildScriptHead m, "\n    \x7d\n\x7d".toList, rfl⟩⟩
  · cases hBL : m.enableBlueprintLibrary <;> cases hAA : m.enableAsyncActions <;>
      simp [publicDeps, hBL, hAA] <;> decide
  · cases hBL : m.enableBlueprintLibrary <;> cases hAA : m.enableAsyncActions <;>
      simp [publicDeps, hBL, hAA] <;> decide
  · cases hBL : m.enableBlueprintLibrary <;> cases hEM : m.enableEditorModule <;>
      simp [privateDeps, hBL, hEM] <;> decide
  · cases hBL : m.enableBlueprintLibrary <;> cases hEM : m.enableEditorModule <;>
      simp [privateDeps, hBL, hEM] <;> decide

